import Mathlib

/-!
Verification of the Pedersen VSS core (share/vss/pedersen/vss.go).

Shallow embedding notes.
* Byte slices become `List Nat`; where Go distinguishes a nil slice from a
  non-nil one (the `a.sid != nil` guard in `verifyResponse`), the field is an
  `Option (List Nat)` with `none` standing for Go nil.
* Group points and scalars are opaque to the protocol logic verified here:
  the code only moves them around or hands them to external crypto
  (kyber group ops, schnorr signatures, the share polynomial package, hash
  functions).  They are modelled as opaque `Nat` identifiers, and each
  external crypto check is a Boolean oracle parameter of the operation that
  uses it (`shareOk` for the commitment-polynomial share check inside
  `VerifyDeal`, `sigOk` for `schnorr.Verify` inside `verifyResponse`,
  `hashSid` for the `sessionID` hash).  The control flow around those calls
  is translated exactly from the source.
* The Go map `responses map[uint32]*Response` becomes an association list
  `List (Nat × Response)`; `goodKeys` states what the Go representation
  guarantees structurally (no duplicate keys) together with the invariant
  every insertion site enforces (keys below `len(verifiers)`).
* Go `int` becomes `Int`, Go `uint32` values become `Nat`.
-/

namespace Pedersen

/-- Byte strings (Go byte slices) are lists of naturals. -/
abbrev Bytes := List Nat

/-- StatusComplaint from the source: a verifier complains about its Deal. -/
def StatusComplaint : Bool := false

/-- StatusApproval from the source: a verifier approves its Deal. -/
def StatusApproval : Bool := true

/-- Go uint32 truncation of a Go int: the value modulo 2^32 (nonnegative). -/
def goUint32 (t : Int) : Int := t % (2 ^ 32)

/-- Source `validT t verifiers`: `t >= 2 && t <= len(verifiers) && int(uint32(t)) == t`.
Only the length of the verifier vector matters. -/
def validT (t : Int) (n : Nat) : Bool :=
  decide (2 ≤ t) && decide (t ≤ (n : Int)) && decide (goUint32 t = t)

/-- PriShare from the external share package: index `i` (Go int) and an opaque
scalar value `v`. -/
structure PriShare where
  i : Int
  v : Nat
  deriving DecidableEq, Repr

/-- Deal from the source: session id, private share, threshold T (uint32) and
the commitment points (opaque identifiers). -/
structure Deal where
  sessionID : Bytes
  secShare : PriShare
  T : Nat
  commitments : List Nat
  deriving DecidableEq, Repr

/-- Response from the source: session id, verifier index (uint32), status.
The schnorr signature over the response hash is external crypto and enters the
model through the `sigOk` oracle of `verifyResponse`. -/
structure Response where
  sessionID : Bytes
  index : Nat
  status : Bool
  deriving DecidableEq, Repr

/-- Justification from the source: session id, complainer index, cleartext
Deal.  The dealer signature is checked outside the Aggregator. -/
structure Justification where
  sessionID : Bytes
  index : Nat
  deal : Deal
  deriving DecidableEq, Repr

/-- The error values returned by the Aggregator operations, one constructor
per `errors.New` site in the source. -/
inductive VSSError where
  | dealAlreadyProcessed
  | invalidThresholdDeal
  | incompatibleThreshold
  | mismatchedSessionDeal
  | indexOutOfBoundsDeal
  | shareCommitmentMismatch
  | mismatchedSessionResponse
  | indexOutOfBoundsResponse
  | badSignature
  | indexOutOfBoundsAdd
  | duplicateResponse
  | indexOutOfBoundsJust
  | noComplaintForJust
  | justificationForApproval
  deriving DecidableEq, Repr

/-- Aggregator state from the source.  `n` is `len(a.verifiers)` (the public
keys themselves are only used by external crypto); `sid = none` models a Go
nil slice; `responses` models the Go map from verifier index to Response. -/
structure Aggregator where
  n : Nat
  commits : List Nat
  responses : List (Nat × Response)
  sid : Option Bytes
  deal : Option Deal
  t : Int
  badDealer : Bool
  deriving DecidableEq, Repr

/-- Bytes seen by `bytes.Equal` and by Response construction: a nil slice
compares and serializes like the empty slice. -/
def sidBytes : Option Bytes → Bytes
  | none => []
  | some s => s

/-- Source `newAggregator`: dealer-side construction with everything given. -/
def newAggregator (n : Nat) (commitments : List Nat) (t : Int) (sid : Bytes) :
    Aggregator :=
  { n := n, commits := commitments, responses := [], sid := some sid,
    deal := none, t := t, badDealer := false }

/-- Source `NewEmptyAggregator`: verifier-side construction, only the
verifier vector is known; Go zero values for the rest (`t = 0`, nil `sid`). -/
def NewEmptyAggregator (n : Nat) : Aggregator :=
  { n := n, commits := [], responses := [], sid := none,
    deal := none, t := 0, badDealer := false }

/-- The binding step at the top of `VerifyDeal`: if no deal is bound yet,
copy `commits`, `sid`, `deal`, `t` from the incoming Deal. -/
def bindDeal (a : Aggregator) (d : Deal) : Aggregator :=
  if a.deal.isNone then
    { a with commits := d.commitments, sid := some d.sessionID,
             deal := some d, t := (d.T : Int) }
  else a

/-- Source `Aggregator.VerifyDeal`.  The final commitment-polynomial check
`fig.Equal(pubShare.V)` is group arithmetic performed by the external share
package; it is abstracted by the oracle `shareOk d`.  Every other branch is
translated literally. -/
def VerifyDeal (shareOk : Deal → Bool) (a : Aggregator) (d : Deal)
    (inclusion : Bool) : Aggregator × Option VSSError :=
  if a.deal.isSome && inclusion then (a, some .dealAlreadyProcessed) else
  let a := bindDeal a d
  if !(validT (d.T : Int) a.n) then (a, some .invalidThresholdDeal) else
  if (d.T : Int) ≠ a.t then (a, some .incompatibleThreshold) else
  if sidBytes a.sid ≠ d.sessionID then (a, some .mismatchedSessionDeal) else
  if d.secShare.i < 0 ∨ (a.n : Int) ≤ d.secShare.i then
    (a, some .indexOutOfBoundsDeal) else
  if !(shareOk d) then (a, some .shareCommitmentMismatch) else
  (a, none)

/-- Source `Aggregator.addResponse`: bounds check via `findPub`, duplicate
check on the response map, then insertion at `r.Index`. -/
def addResponse (a : Aggregator) (r : Response) : Aggregator × Option VSSError :=
  if a.n ≤ r.index then (a, some .indexOutOfBoundsAdd) else
  if (a.responses.lookup r.index).isSome then (a, some .duplicateResponse) else
  ({ a with responses := (r.index, r) :: a.responses }, none)

/-- Source `Aggregator.verifyResponse`: session check (skipped when `sid` is
nil), bounds check, schnorr verification (oracle `sigOk`), then
`addResponse`. -/
def verifyResponse (sigOk : Response → Bool) (a : Aggregator) (r : Response) :
    Aggregator × Option VSSError :=
  if a.sid.isSome && !(r.sessionID = sidBytes a.sid : Bool) then
    (a, some .mismatchedSessionResponse) else
  if a.n ≤ r.index then (a, some .indexOutOfBoundsResponse) else
  if !(sigOk r) then (a, some .badSignature) else
  addResponse a r

/-- The in-place status upgrade `r.Status = StatusApproval` performed through
the map pointer in `verifyJustification`: the entry stored at key `k` gets
status approval. -/
def upgradeAt (rs : List (Nat × Response)) (k : Nat) : List (Nat × Response) :=
  rs.map fun p => if p.1 = k then (p.1, { p.2 with status := StatusApproval }) else p

/-- Source `Aggregator.verifyJustification`: bounds check, a complaint must be
stored at `j.Index`, re-verification of the justification Deal (which sets the
`badDealer` flag on failure), and on success the stored complaint is upgraded
to an approval. -/
def verifyJustification (shareOk : Deal → Bool) (a : Aggregator)
    (j : Justification) : Aggregator × Option VSSError :=
  if a.n ≤ j.index then (a, some .indexOutOfBoundsJust) else
  match a.responses.lookup j.index with
  | none => (a, some .noComplaintForJust)
  | some r =>
    if r.status ≠ StatusComplaint then (a, some .justificationForApproval) else
    match VerifyDeal shareOk a j.deal false with
    | (a1, some e) => ({ a1 with badDealer := true }, some e)
    | (a1, none) => ({ a1 with responses := upgradeAt a1.responses j.index }, none)

/-- Source `Aggregator.cleanVerifiers`: synthesize an unsigned complaint for
every verifier index with no stored Response. -/
def cleanVerifiers (a : Aggregator) : Aggregator :=
  { a with responses := (List.range a.n).foldl (fun rs i =>
      if (rs.lookup i).isSome then rs
      else (i, { sessionID := sidBytes a.sid, index := i,
                 status := StatusComplaint }) :: rs) a.responses }

/-- Source `Aggregator.SetThreshold`: unconditionally overwrite `t`. -/
def SetThreshold (a : Aggregator) (t : Int) : Aggregator := { a with t := t }

/-- Source `Aggregator.EnoughApprovals`: count stored Responses with approval
status and compare with `t`. -/
def EnoughApprovals (a : Aggregator) : Bool :=
  decide (a.t ≤ ((a.responses.countP fun p => p.2.status == StatusApproval : Nat) : Int))

/-- The `absentVerifiers` counter of `DealCertified`: verifier indices with no
stored Response. -/
def absentVerifiers (a : Aggregator) : Nat :=
  (List.range a.n).countP fun i => (a.responses.lookup i).isNone

/-- The `complaints` counter of `DealCertified`: verifier indices whose stored
Response is a complaint. -/
def complaintsAmong (a : Aggregator) : Nat :=
  (List.range a.n).countP fun i =>
    (((a.responses.lookup i).map fun r => r.status == StatusComplaint).getD false)

/-- Source `Aggregator.DealCertified`:
`EnoughApprovals && !(absentVerifiers > 0 || badDealer || complaints > t)`. -/
def DealCertified (a : Aggregator) : Bool :=
  EnoughApprovals a &&
    !(decide (0 < absentVerifiers a) || a.badDealer ||
      decide (a.t < (complaintsAmong a : Int)))

/-- Dealer model for `NewDealer`: the fields that the verified claims touch.
The polynomial, commitments, session hash and deal vector are external crypto
with no failure path (`sessionID` in the source always returns a nil error). -/
structure DealerModel where
  t : Int
  n : Nat
  deriving DecidableEq, Repr

/-- Source `NewDealer`: the only failure path is the `validT` check; every
later step of the constructor returns a nil error. -/
def NewDealer (n : Nat) (t : Int) : Option DealerModel :=
  if validT t n then some { t := t, n := n } else none

/-- Verifier model for the post-decryption part of `ProcessEncryptedDeal`:
only the verifier index and the embedded Aggregator matter. -/
structure VerifierModel where
  index : Nat
  agg : Aggregator

/-- The body of `Verifier.ProcessEncryptedDeal` after `decryptDeal` has
returned Deal `d` (decryption and response signing are external crypto;
signing is modelled as succeeding).  `hashSid` abstracts the `sessionID`
hash recomputed from the dealer key, verifier set, commitments and threshold.
Faithful to the source order: index check, sid recomputation,
`VerifyDeal(d, true)` deciding the status, the `errDealAlreadyProcessed`
early return, then `addResponse`. -/
def processDecryptedDeal (hashSid : List Nat → Int → Bytes)
    (shareOk : Deal → Bool) (v : VerifierModel) (d : Deal) :
    Option Response × Aggregator :=
  if d.secShare.i ≠ (v.index : Int) then (none, v.agg) else
  let sid := hashSid d.commitments (d.T : Int)
  match VerifyDeal shareOk v.agg d true with
  | (a1, e) =>
    if e = some VSSError.dealAlreadyProcessed then (none, a1) else
    let r : Response := { sessionID := sid, index := v.index, status := e.isNone }
    match addResponse a1 r with
    | (a2, some _) => (none, a2)
    | (a2, none) => (some r, a2)

/-- Errors of the secret recovery path. -/
inductive RecoverError where
  | mismatchedSession
  | insufficientShares
  deriving DecidableEq, Repr

/-- Modelled from the spec: the external share primitive `share.RecoverSecret`
(declared out of scope in spec section 1; spec section 4.4 requires at least
`t` distinct valid shares, failing with the RecoveryError `InsufficientShares`
of section 7; the recovered scalar itself is Lagrange interpolation and is
abstracted to `Unit`). -/
def shareRecoverSecret (shares : List PriShare) (t : Int) (_n : Int) :
    Except RecoverError Unit :=
  if (shares.length : Int) < t then .error .insufficientShares else .ok ()

/-- Source `vss.RecoverSecret`: the Go range loop compares every Deal session
id with `deals[0].SessionID` and collects the shares; on an empty slice the
loop body never runs (so `deals[0]` is never evaluated) and the call goes
straight to the external recovery with an empty share list. -/
def RecoverSecret (deals : List Deal) (n : Int) (t : Int) :
    Except RecoverError Unit :=
  match deals with
  | [] => shareRecoverSecret [] t n
  | d0 :: _ =>
    if deals.all fun d => d.sessionID == d0.sessionID then
      shareRecoverSecret (deals.map Deal.secShare) t n
    else .error .mismatchedSession

/-- The representation invariant the Go map structurally guarantees (no two
entries share a key) together with the invariant every insertion site keeps
(keys are verifier indices below `n`). -/
def goodKeys (a : Aggregator) : Prop :=
  (a.responses.map Prod.fst).Nodup ∧ ∀ p ∈ a.responses, p.1 < a.n

instance (a : Aggregator) : Decidable (goodKeys a) := by
  unfold goodKeys; infer_instance


/-! ## Association-list helper lemmas -/

theorem lookup_cons_self (k : Nat) (v : Response) (l : List (Nat × Response)) :
    ((k, v) :: l).lookup k = some v := by
  simp [List.lookup]

theorem lookup_cons_ne (i k : Nat) (v : Response) (l : List (Nat × Response))
    (h : i ≠ k) : ((k, v) :: l).lookup i = l.lookup i := by
  have hb : (i == k) = false := beq_eq_false_iff_ne.mpr h
  simp [List.lookup, hb]

theorem lookup_eq_none_of_not_mem (l : List (Nat × Response)) (k : Nat)
    (h : k ∉ l.map Prod.fst) : l.lookup k = none := by
  induction l with
  | nil => rfl
  | cons q l ih =>
    obtain ⟨k1, v1⟩ := q
    simp only [List.map_cons, List.mem_cons] at h
    push_neg at h
    rw [lookup_cons_ne _ _ _ _ h.1]
    exact ih h.2

/-- Counting over verifier indices equals counting over stored entries, as
long as the response table has no duplicate keys and all keys are in range:
this bridges the loop of DealCertified (which scans indices and looks each
one up) and the loop of EnoughApprovals (which scans stored entries). -/
theorem countP_range_lookup (P : Response → Bool) :
    ∀ (l : List (Nat × Response)) (n : Nat),
      (l.map Prod.fst).Nodup → (∀ p ∈ l, p.1 < n) →
      ((List.range n).countP fun i => (((l.lookup i).map P).getD false)) =
        l.countP fun p => P p.2 := by
  intro l
  induction l with
  | nil => intro n _ _; simp [List.lookup]
  | cons q l ih =>
    intro n hnd hlt
    obtain ⟨k, v⟩ := q
    simp only [List.map_cons, List.nodup_cons] at hnd
    have hk : k < n := hlt (k, v) (List.mem_cons_self _ _)
    have hperm := List.perm_cons_erase (List.mem_range.mpr hk)
    have hknot : k ∉ (List.range n).erase k := (List.nodup_range n).not_mem_erase
    have hcongr : ∀ i ∈ (List.range n).erase k,
        (((((k, v) :: l).lookup i).map P).getD false) =
          (((l.lookup i).map P).getD false) := by
      intro i hi
      have hik : i ≠ k := by
        intro he; rw [he] at hi; exact hknot hi
      rw [lookup_cons_ne i k v l hik]
    have hnone : l.lookup k = none := lookup_eq_none_of_not_mem l k hnd.1
    have hsub : ∀ p ∈ l, p.1 < n := fun p hp => hlt p (List.mem_cons_of_mem _ hp)
    have hIH := ih n hnd.2 hsub
    have h1 : ((List.range n).countP
          fun i => ((((k, v) :: l).lookup i).map P).getD false)
        = (((List.range n).erase k).countP
            fun i => ((((k, v) :: l).lookup i).map P).getD false)
          + (if P v then 1 else 0) := by
      rw [hperm.countP_eq]
      simp [List.countP_cons, lookup_cons_self]
    have h2 : (((List.range n).erase k).countP
          fun i => ((((k, v) :: l).lookup i).map P).getD false)
        = (((List.range n).erase k).countP
            fun i => ((l.lookup i).map P).getD false) :=
      List.countP_congr (by intro i hi; rw [hcongr i hi])
    have h3 : ((List.range n).countP fun i => ((l.lookup i).map P).getD false)
        = (((List.range n).erase k).countP
            fun i => ((l.lookup i).map P).getD false) := by
      rw [hperm.countP_eq]
      simp [List.countP_cons, hnone]
    rw [h1, h2, ← h3, hIH, List.countP_cons]

/-- Under the key invariant, the complaint counter of DealCertified equals
the number of stored complaint Responses. -/
theorem complaintsAmong_eq_countP (a : Aggregator) (h : goodKeys a) :
    complaintsAmong a =
      a.responses.countP fun p => p.2.status == StatusComplaint :=
  countP_range_lookup _ a.responses a.n h.1 h.2

/-- The absent counter of DealCertified vanishes exactly when every verifier
index has a stored Response. -/
theorem absentVerifiers_eq_zero_iff (a : Aggregator) :
    absentVerifiers a = 0 ↔
      ∀ i, i < a.n → (a.responses.lookup i).isSome = true := by
  unfold absentVerifiers
  rw [List.countP_eq_zero]
  constructor
  · intro h i hi
    have h2 := h i (List.mem_range.mpr hi)
    simpa [Option.isNone_iff_eq_none, ← Option.ne_none_iff_isSome] using h2
  · intro h i hi
    have h2 := h i (List.mem_range.mp hi)
    simpa [Option.isNone_iff_eq_none, ← Option.ne_none_iff_isSome] using h2

/-- Characterization of `DealCertified` used by several claims: under the key
invariant it decomposes into the approval threshold, a clean dealer flag, no
absent verifier, and a complaint count of at most `t`. -/
theorem dealCertified_char (a : Aggregator) (h : goodKeys a) :
    DealCertified a = true ↔
      (a.t ≤ ((a.responses.countP fun p => p.2.status == StatusApproval : Nat) : Int) ∧
       a.badDealer = false ∧
       (∀ i, i < a.n → (a.responses.lookup i).isSome = true) ∧
       ((a.responses.countP fun p => p.2.status == StatusComplaint : Nat) : Int) ≤ a.t) := by
  unfold DealCertified EnoughApprovals
  rw [← complaintsAmong_eq_countP a h, ← absentVerifiers_eq_zero_iff a]
  simp only [Bool.and_eq_true, decide_eq_true_eq, Bool.not_eq_true',
    Bool.or_eq_false_iff, decide_eq_false_iff_not, not_lt]
  constructor
  · rintro ⟨h1, ⟨h2, h3⟩, h4⟩
    exact ⟨h1, h3, Nat.le_zero.mp h2, h4⟩
  · rintro ⟨h1, h2, h3, h4⟩
    exact ⟨h1, ⟨Nat.le_zero.mpr h3, h2⟩, h4⟩

/-! ## Concrete states used by witnesses and counterexamples -/

/-- Approval response of verifier 0 in the sample session. -/
def rA0 : Response := { sessionID := [1], index := 0, status := true }

/-- Approval response of verifier 1 in the sample session. -/
def rA1 : Response := { sessionID := [1], index := 1, status := true }

/-- Complaint response of verifier 2 in the sample session. -/
def rK2 : Response := { sessionID := [1], index := 2, status := false }

/-- A sample bound Deal. -/
def dealW : Deal :=
  { sessionID := [1], secShare := { i := 0, v := 0 }, T := 2, commitments := [3] }

/-- Sample Aggregator: n = 3, t = 2, a bound deal, all three slots filled with
two approvals and one complaint, clean dealer flag. -/
def aggW : Aggregator :=
  { n := 3, commits := [3], responses := [(0, rA0), (1, rA1), (2, rK2)],
    sid := some [1], deal := some dealW, t := 2, badDealer := false }

/-! ## C1 -/

/-- C1: for every Aggregator state (under the key invariant the Go map
guarantees), DealCertified returns true iff EnoughApprovals holds, the
badDealer flag is clear, every verifier index from 0 to n-1 has a stored
Response, and the number of stored complaint Responses is at most t. -/
theorem c1_dealCertified_iff (a : Aggregator) (h : goodKeys a) :
    DealCertified a = true ↔
      (EnoughApprovals a = true ∧ a.badDealer = false ∧
       (∀ i, i < a.n → (a.responses.lookup i).isSome = true) ∧
       ((a.responses.countP fun p => p.2.status == StatusComplaint : Nat) : Int) ≤ a.t) := by
  rw [dealCertified_char a h]
  unfold EnoughApprovals
  simp only [decide_eq_true_eq]

/-- Witness for C1 at the sample Aggregator. -/
theorem c1_witness :
    goodKeys aggW ∧
      (DealCertified aggW = true ↔
        (EnoughApprovals aggW = true ∧ aggW.badDealer = false ∧
         (∀ i, i < aggW.n → (aggW.responses.lookup i).isSome = true) ∧
         ((aggW.responses.countP fun p => p.2.status == StatusComplaint : Nat) : Int) ≤ aggW.t)) :=
  ⟨by decide, c1_dealCertified_iff aggW (by decide)⟩

/-! ## C2 -/

/-- C2 counterexample: in the sample Aggregator every slot is filled, there
are a = 2 approvals and c = 1 complaint with a + c = n = 3, t = 2 and a clean
dealer flag, yet DealCertified is true while c is not zero — refuting the
claimed equivalence (which demands c = 0 for certification). -/
theorem c2_counterexample :
    (∀ i, i < aggW.n → (aggW.responses.lookup i).isSome = true) ∧
    aggW.badDealer = false ∧
    ((aggW.responses.countP fun p => p.2.status == StatusApproval : Nat) : Int) = 2 ∧
    ((aggW.responses.countP fun p => p.2.status == StatusComplaint : Nat) : Int) = 1 ∧
    aggW.t = 2 ∧ (2 : Int) + 1 = (aggW.n : Int) ∧
    DealCertified aggW = true := by decide

/-- C2 amended: for every Aggregator in which all n verifier indices hold a
stored Response, DealCertified is true iff the approval count is at least t,
the complaint count is at most t, and badDealer is false. -/
theorem c2_certification_threshold (a : Aggregator) (h : goodKeys a)
    (hall : ∀ i, i < a.n → (a.responses.lookup i).isSome = true) :
    DealCertified a = true ↔
      (a.t ≤ ((a.responses.countP fun p => p.2.status == StatusApproval : Nat) : Int) ∧
       ((a.responses.countP fun p => p.2.status == StatusComplaint : Nat) : Int) ≤ a.t ∧
       a.badDealer = false) := by
  rw [dealCertified_char a h]
  tauto

/-- Witness for the amended C2 at the sample Aggregator. -/
theorem c2_witness :
    DealCertified aggW = true ↔
      (aggW.t ≤ ((aggW.responses.countP fun p => p.2.status == StatusApproval : Nat) : Int) ∧
       ((aggW.responses.countP fun p => p.2.status == StatusComplaint : Nat) : Int) ≤ aggW.t ∧
       aggW.badDealer = false) :=
  c2_certification_threshold aggW (by decide) (by decide)

/-! ## C5 -/

/-- C5: NewDealer fails iff t < 2, or t > n, or t is not representable in 32
bits (the Go check `int(uint32(t)) == t`); in particular t = 1 and t = n + 1
always fail, and no Dealer is returned for a failing t (Option none). -/
theorem c5_newDealer_invalidThreshold (n : Nat) (t : Int) :
    (NewDealer n t = none ↔
      (t < 2 ∨ (n : Int) < t ∨ ¬(0 ≤ t ∧ t < 2 ^ 32))) ∧
    NewDealer n 1 = none ∧ NewDealer n ((n : Int) + 1) = none := by
  have key : ∀ s : Int, NewDealer n s = none ↔
      (s < 2 ∨ (n : Int) < s ∨ ¬(0 ≤ s ∧ s < 2 ^ 32)) := by
    intro s
    have h : NewDealer n s = none ↔ ¬(validT s n = true) := by
      unfold NewDealer
      cases hv : validT s n <;> simp [hv]
    rw [h]
    unfold validT goUint32
    simp only [Bool.and_eq_true, decide_eq_true_eq]
    omega
  refine ⟨key t, (key 1).mpr (by omega), (key ((n : Int) + 1)).mpr (by omega)⟩

/-! ## C6 -/

/-- C6: when the session id is bound and a Response carries a different
session id, verifyResponse rejects it with MismatchedSession for every
signature oracle (so the session check precedes any signature verification)
and returns the Aggregator unchanged, response table included. -/
theorem c6_mismatchedSession_before_signature (sigOk : Response → Bool)
    (a : Aggregator) (r : Response) (s : Bytes) (hs : a.sid = some s)
    (hne : r.sessionID ≠ s) :
    verifyResponse sigOk a r = (a, some VSSError.mismatchedSessionResponse) := by
  unfold verifyResponse
  rw [hs]
  simp [sidBytes, hne]

/-- A response carrying the session id of a foreign session. -/
def rForeign : Response := { sessionID := [2], index := 0, status := true }

/-- Witness for C6: the sample Aggregator is bound to session [1] and rejects
the foreign-session response with MismatchedSession even under a signature
oracle that rejects everything (which would give BadSignature if reached). -/
theorem c6_witness :
    verifyResponse (fun _ => false) aggW rForeign =
      (aggW, some VSSError.mismatchedSessionResponse) :=
  c6_mismatchedSession_before_signature (fun _ => false) aggW rForeign [1]
    rfl (by decide)

/-! ## C7 -/

theorem lookup_isSome_of_mem (l : List (Nat × Response)) (k : Nat)
    (h : k ∈ l.map Prod.fst) : (l.lookup k).isSome = true := by
  induction l with
  | nil => simp at h
  | cons q l ih =>
    obtain ⟨k1, v1⟩ := q
    rcases eq_or_ne k k1 with he | hne
    · subst he; rw [lookup_cons_self]; rfl
    · rw [lookup_cons_ne _ _ _ _ hne]
      simp only [List.map_cons, List.mem_cons] at h
      exact ih (h.resolve_left hne)

/-- C7: for an in-bounds index, addResponse rejects a second Response at an
occupied index with DuplicateResponse leaving the whole state (hence the
previously stored Response) unchanged, inserts into a free index, and
preserves the at-most-one-response-per-index invariant of the table. -/
theorem c7_addResponse_duplicate (a : Aggregator) (r : Response)
    (h : r.index < a.n) :
    (∀ r0, a.responses.lookup r.index = some r0 →
        addResponse a r = (a, some VSSError.duplicateResponse)) ∧
    (a.responses.lookup r.index = none →
        addResponse a r =
          ({ a with responses := (r.index, r) :: a.responses }, none)) ∧
    ((a.responses.map Prod.fst).Nodup →
        (((addResponse a r).1.responses).map Prod.fst).Nodup) := by
  refine ⟨?_, ?_, ?_⟩
  · intro r0 hr0
    unfold addResponse
    rw [if_neg (by omega), hr0]
    simp
  · intro hnone
    unfold addResponse
    rw [if_neg (by omega), hnone]
    simp
  · intro hnd
    unfold addResponse
    rw [if_neg (by omega)]
    by_cases h2 : (a.responses.lookup r.index).isSome = true
    · rw [if_pos h2]; exact hnd
    · rw [if_neg h2]
      simp only [List.map_cons]
      refine List.nodup_cons.mpr ⟨?_, hnd⟩
      intro hmem
      exact h2 (lookup_isSome_of_mem _ _ hmem)

/-- A duplicate response aimed at the already-occupied index 0. -/
def rDup : Response := { sessionID := [1], index := 0, status := false }

/-- Witness for C7: submitting a second response at index 0 of the sample
Aggregator is rejected with DuplicateResponse and the state is unchanged. -/
theorem c7_witness :
    addResponse aggW rDup = (aggW, some VSSError.duplicateResponse) :=
  (c7_addResponse_duplicate aggW rDup (by decide)).1 rA0 rfl

/-! ## C4 -/

/-- VerifyDeal never touches the response table (binding only copies
commitments, sid, deal and t). -/
theorem verifyDeal_responses (shareOk : Deal → Bool) (a : Aggregator)
    (d : Deal) (incl : Bool) :
    ((VerifyDeal shareOk a d incl).1).responses = a.responses := by
  unfold VerifyDeal bindDeal
  dsimp only
  repeat' split
  all_goals rfl

/-- Looking up the upgraded key after the in-place status upgrade yields the
stored Response with status approval. -/
theorem lookup_upgradeAt (rs : List (Nat × Response)) (k : Nat) (r : Response)
    (h : rs.lookup k = some r) :
    (upgradeAt rs k).lookup k = some { r with status := StatusApproval } := by
  induction rs with
  | nil => simp [List.lookup] at h
  | cons q rs ih =>
    obtain ⟨k1, v1⟩ := q
    rcases eq_or_ne k k1 with he | hne
    · subst he
      rw [lookup_cons_self] at h
      injection h with h
      subst h
      show ((if k = k then (k, { v1 with status := StatusApproval }) else (k, v1))
          :: upgradeAt rs k).lookup k = _
      rw [if_pos rfl, lookup_cons_self]
    · rw [lookup_cons_ne _ _ _ _ hne] at h
      show ((if k1 = k then (k1, { v1 with status := StatusApproval }) else (k1, v1))
          :: upgradeAt rs k).lookup k = _
      rw [if_neg (Ne.symm hne), lookup_cons_ne _ _ _ _ hne]
      exact ih h

/-- C4: for a Justification with in-bounds index, verifyJustification fails
with NoComplaintForJustification when no Response is stored at j.index, fails
with JustificationForApproval when the stored Response is an approval, and
when a complaint is stored and the re-verification of the justification Deal
succeeds, it succeeds and the stored Response is upgraded from complaint to
approval. -/
theorem c4_verifyJustification (shareOk : Deal → Bool) (a : Aggregator)
    (j : Justification) (h : j.index < a.n) :
    (a.responses.lookup j.index = none →
        verifyJustification shareOk a j = (a, some VSSError.noComplaintForJust)) ∧
    (∀ r, a.responses.lookup j.index = some r → r.status = StatusApproval →
        verifyJustification shareOk a j =
          (a, some VSSError.justificationForApproval)) ∧
    (∀ r a1, a.responses.lookup j.index = some r → r.status = StatusComplaint →
        VerifyDeal shareOk a j.deal false = (a1, none) →
        verifyJustification shareOk a j =
          ({ a1 with responses := upgradeAt a1.responses j.index }, none) ∧
        (({ a1 with responses := upgradeAt a1.responses j.index }).responses.lookup
            j.index) = some { r with status := StatusApproval }) := by
  refine ⟨?_, ?_, ?_⟩
  · intro hnone
    unfold verifyJustification
    rw [if_neg (by omega), hnone]
  · intro r hr hst
    unfold verifyJustification
    rw [if_neg (by omega), hr]
    simp [hst, StatusApproval, StatusComplaint]
  · intro r a1 hr hst hvd
    have hresp : a1.responses = a.responses := by
      have h2 := verifyDeal_responses shareOk a j.deal false
      rw [hvd] at h2
      exact h2
    constructor
    · unfold verifyJustification
      rw [if_neg (by omega), hr]
      simp [hst, StatusComplaint, hvd]
    · show (upgradeAt a1.responses j.index).lookup j.index = _
      exact lookup_upgradeAt a1.responses j.index r (by rw [hresp]; exact hr)

/-- A justification aimed at the complaint slot 2 of the sample session. -/
def justW : Justification := { sessionID := [1], index := 2, deal := dealW }

/-- Witness for C4: in the sample Aggregator a complaint is stored at index 2
and re-verification of the sample Deal succeeds under an accepting share
oracle, so the justification succeeds and slot 2 is upgraded to approval. -/
theorem c4_witness :
    verifyJustification (fun _ => true) aggW justW =
      ({ aggW with responses := upgradeAt aggW.responses 2 }, none) ∧
    (({ aggW with responses := upgradeAt aggW.responses 2 }).responses.lookup 2)
      = some { rK2 with status := StatusApproval } :=
  (c4_verifyJustification (fun _ => true) aggW justW (by decide)).2.2 rK2 aggW
    rfl rfl rfl

/-! ## Aggregator operations as a step relation (for C3 and C8)

Every mutation a Dealer or Verifier can route to its embedded Aggregator:
`Verifier.ProcessEncryptedDeal` performs a verifyDealOp followed by an
addResponseOp, `Dealer.ProcessResponse` / `Verifier.ProcessResponse` /
`Aggregator.ProcessResponse` perform a verifyResponseOp,
`ProcessJustification` a verifyJustificationOp, `SetTimeout` a
cleanVerifiersOp, `UnsafeSetResponseDKG` an addResponseOp, and
`SetThreshold` a setThresholdOp.  All other Dealer and Verifier methods
read the Aggregator without mutating it. -/

inductive AggOp where
  | verifyDealOp (shareOk : Deal → Bool) (d : Deal) (inclusion : Bool)
  | verifyResponseOp (sigOk : Response → Bool) (r : Response)
  | addResponseOp (r : Response)
  | verifyJustificationOp (shareOk : Deal → Bool) (j : Justification)
  | cleanVerifiersOp
  | setThresholdOp (t : Int)

/-- State effect of one Aggregator operation. -/
def applyOp (a : Aggregator) : AggOp → Aggregator
  | .verifyDealOp shareOk d incl => (VerifyDeal shareOk a d incl).1
  | .verifyResponseOp sigOk r => (verifyResponse sigOk a r).1
  | .addResponseOp r => (addResponse a r).1
  | .verifyJustificationOp shareOk j => (verifyJustification shareOk a j).1
  | .cleanVerifiersOp => cleanVerifiers a
  | .setThresholdOp t => SetThreshold a t

/-- State effect of a sequence of Aggregator operations. -/
def applyOps (a : Aggregator) : List AggOp → Aggregator
  | [] => a
  | op :: ops => applyOps (applyOp a op) ops

/-- Whether an operation is the SetThreshold call. -/
def isSetThresholdOp : AggOp → Bool
  | .setThresholdOp _ => true
  | _ => false

/-- VerifyDeal never changes the badDealer flag (binding copies everything
except it). -/
theorem verifyDeal_badDealer (shareOk : Deal → Bool) (a : Aggregator)
    (d : Deal) (incl : Bool) :
    ((VerifyDeal shareOk a d incl).1).badDealer = a.badDealer := by
  unfold VerifyDeal bindDeal
  dsimp only
  repeat' split
  all_goals rfl

/-- addResponse changes only the response table. -/
theorem addResponse_fields (a : Aggregator) (r : Response) :
    ((addResponse a r).1.sid = a.sid ∧ (addResponse a r).1.commits = a.commits ∧
     (addResponse a r).1.deal = a.deal ∧ (addResponse a r).1.t = a.t ∧
     (addResponse a r).1.badDealer = a.badDealer ∧ (addResponse a r).1.n = a.n) := by
  unfold addResponse
  repeat' split
  all_goals exact ⟨rfl, rfl, rfl, rfl, rfl, rfl⟩

/-- verifyResponse changes only the response table. -/
theorem verifyResponse_fields (sigOk : Response → Bool) (a : Aggregator)
    (r : Response) :
    ((verifyResponse sigOk a r).1.sid = a.sid ∧
     (verifyResponse sigOk a r).1.commits = a.commits ∧
     (verifyResponse sigOk a r).1.deal = a.deal ∧
     (verifyResponse sigOk a r).1.t = a.t ∧
     (verifyResponse sigOk a r).1.badDealer = a.badDealer ∧
     (verifyResponse sigOk a r).1.n = a.n) := by
  unfold verifyResponse
  repeat' split
  all_goals first
  | exact ⟨rfl, rfl, rfl, rfl, rfl, rfl⟩
  | exact addResponse_fields a r

/-- When a deal is already bound, VerifyDeal performs no state change at
all: the binding branch is skipped and every check returns the state as
received. -/
theorem verifyDeal_bound_eq (shareOk : Deal → Bool) (a : Aggregator)
    (d : Deal) (incl : Bool) (h : a.deal.isSome = true) :
    (VerifyDeal shareOk a d incl).1 = a := by
  have hn : a.deal.isNone = false := by
    cases hd : a.deal with
    | none => rw [hd] at h; simp at h
    | some d0 => rfl
  unfold VerifyDeal bindDeal
  rw [hn]
  dsimp only
  repeat' split
  all_goals first | rfl | simp_all

/-- The badDealer flag is monotone under every single operation: once true
it stays true. -/
theorem badDealer_mono (a : Aggregator) (op : AggOp)
    (h : a.badDealer = true) : (applyOp a op).badDealer = true := by
  cases op with
  | verifyDealOp shareOk d incl =>
    show ((VerifyDeal shareOk a d incl).1).badDealer = true
    rw [verifyDeal_badDealer]; exact h
  | verifyResponseOp sigOk r =>
    show ((verifyResponse sigOk a r).1).badDealer = true
    rw [(verifyResponse_fields sigOk a r).2.2.2.2.1]; exact h
  | addResponseOp r =>
    show ((addResponse a r).1).badDealer = true
    rw [(addResponse_fields a r).2.2.2.2.1]; exact h
  | verifyJustificationOp shareOk j =>
    show ((verifyJustification shareOk a j).1).badDealer = true
    unfold verifyJustification
    split
    · exact h
    · split
      · exact h
      · split
        · exact h
        · split
          · rfl
          · rename_i a1 heq
            have hb := verifyDeal_badDealer shareOk a j.deal false
            rw [heq] at hb
            show a1.badDealer = true
            rw [hb]; exact h
  | cleanVerifiersOp => exact h
  | setThresholdOp t => exact h

/-- With the badDealer flag set, DealCertified is false. -/
theorem dealCertified_false_of_bad (a : Aggregator)
    (h : a.badDealer = true) : DealCertified a = false := by
  unfold DealCertified
  rw [h]
  simp

/-! ## C3 -/

/-- Whether an operation is the verifyJustification call. -/
def isVerifyJustificationOp : AggOp → Bool
  | .verifyJustificationOp _ _ => true
  | _ => false

/-- C3: once the badDealer flag is set, no sequence of Aggregator operations
(and hence no Dealer or Verifier method, which all mutate state through these
operations) resets it and DealCertified stays false; moreover every operation
other than verifyJustification leaves the flag untouched, and
verifyJustification raises it only when the re-verification of the
justification Deal fails. -/
theorem c3_badDealer_sticky (a : Aggregator) (ops : List AggOp)
    (h : a.badDealer = true) :
    ((applyOps a ops).badDealer = true ∧
     DealCertified (applyOps a ops) = false) ∧
    (∀ (b : Aggregator) (op : AggOp), isVerifyJustificationOp op = false →
        (applyOp b op).badDealer = b.badDealer) ∧
    (∀ (b : Aggregator) (shareOk : Deal → Bool) (j : Justification),
        b.badDealer = false →
        ((verifyJustification shareOk b j).1).badDealer = true →
        (VerifyDeal shareOk b j.deal false).2 ≠ none) := by
  refine ⟨?_, ?_, ?_⟩
  · have hb : ∀ b : Aggregator, b.badDealer = true →
        (applyOps b ops).badDealer = true := by
      induction ops with
      | nil => intro b hbb; exact hbb
      | cons op ops ih =>
        intro b hbb
        exact ih (applyOp b op) (badDealer_mono b op hbb)
    exact ⟨hb a h, dealCertified_false_of_bad _ (hb a h)⟩
  · intro b op hop
    cases op with
    | verifyDealOp shareOk d incl => exact verifyDeal_badDealer shareOk b d incl
    | verifyResponseOp sigOk r => exact (verifyResponse_fields sigOk b r).2.2.2.2.1
    | addResponseOp r => exact (addResponse_fields b r).2.2.2.2.1
    | verifyJustificationOp shareOk j => simp [isVerifyJustificationOp] at hop
    | cleanVerifiersOp => rfl
    | setThresholdOp t => rfl
  · intro b shareOk j hb0 hb1
    have hvb := verifyDeal_badDealer shareOk b j.deal false
    revert hb1
    unfold verifyJustification
    split
    · intro hb1; rw [hb1] at hb0; cases hb0
    · split
      · intro hb1; rw [hb1] at hb0; cases hb0
      · split
        · intro hb1; rw [hb1] at hb0; cases hb0
        · split
          · rename_i a1 e heq
            intro _
            rw [heq]
            exact fun hc => Option.noConfusion hc
          · rename_i a1 heq
            intro hb1
            rw [heq] at hvb
            have : a1.badDealer = b.badDealer := hvb
            rw [hb1] at this
            rw [← this] at hb0
            cases hb0

/-- The sample Aggregator with the badDealer flag latched. -/
def aggBad : Aggregator := { aggW with badDealer := true }

/-- Witness for C3: after a timeout sweep and a threshold change, the flag is
still set and certification still fails. -/
theorem c3_witness :
    (applyOps aggBad [AggOp.cleanVerifiersOp, AggOp.setThresholdOp 7]).badDealer
        = true ∧
    DealCertified
        (applyOps aggBad [AggOp.cleanVerifiersOp, AggOp.setThresholdOp 7])
        = false :=
  (c3_badDealer_sticky aggBad [AggOp.cleanVerifiersOp, AggOp.setThresholdOp 7]
    rfl).1

/-! ## C8 -/

/-- With a bound deal, verifyJustification leaves sid, commits, deal and t
unchanged (the inner VerifyDeal call does not rebind them). -/
theorem verifyJustification_core_of_bound (shareOk : Deal → Bool)
    (a : Aggregator) (j : Justification) (h : a.deal.isSome = true) :
    ((verifyJustification shareOk a j).1.sid = a.sid ∧
     (verifyJustification shareOk a j).1.commits = a.commits ∧
     (verifyJustification shareOk a j).1.deal = a.deal ∧
     (verifyJustification shareOk a j).1.t = a.t) := by
  have hb := verifyDeal_bound_eq shareOk a j.deal false h
  unfold verifyJustification
  split
  · exact ⟨rfl, rfl, rfl, rfl⟩
  · split
    · exact ⟨rfl, rfl, rfl, rfl⟩
    · split
      · exact ⟨rfl, rfl, rfl, rfl⟩
      · split
        · rename_i a1 e heq
          rw [heq] at hb
          have ha1 : a1 = a := hb
          subst ha1
          exact ⟨rfl, rfl, rfl, rfl⟩
        · rename_i a1 heq
          rw [heq] at hb
          have ha1 : a1 = a := hb
          subst ha1
          exact ⟨rfl, rfl, rfl, rfl⟩

/-- C8 counterexample: the claim fails as stated because SetThreshold
overwrites t unconditionally even after a Deal has been bound: on the sample
Aggregator (bound deal, t = 2), SetThreshold(5) changes t. -/
theorem c8_counterexample :
    aggW.deal.isSome = true ∧
    (applyOp aggW (AggOp.setThresholdOp 5)).t ≠ aggW.t := by
  constructor
  · rfl
  · decide

/-- C8 amended: once a Deal is bound, every Aggregator operation leaves sid,
commits and the bound deal unchanged, and every operation except SetThreshold
also leaves t unchanged. -/
theorem c8_bound_fields_stable (a : Aggregator) (op : AggOp)
    (h : a.deal.isSome = true) :
    ((applyOp a op).sid = a.sid ∧ (applyOp a op).commits = a.commits ∧
     (applyOp a op).deal = a.deal ∧
     (isSetThresholdOp op = false → (applyOp a op).t = a.t)) := by
  cases op with
  | verifyDealOp shareOk d incl =>
    have hb := verifyDeal_bound_eq shareOk a d incl h
    simp only [applyOp]
    rw [hb]
    exact ⟨rfl, rfl, rfl, fun _ => rfl⟩
  | verifyResponseOp sigOk r =>
    have hf := verifyResponse_fields sigOk a r
    exact ⟨hf.1, hf.2.1, hf.2.2.1, fun _ => hf.2.2.2.1⟩
  | addResponseOp r =>
    have hf := addResponse_fields a r
    exact ⟨hf.1, hf.2.1, hf.2.2.1, fun _ => hf.2.2.2.1⟩
  | verifyJustificationOp shareOk j =>
    have hf := verifyJustification_core_of_bound shareOk a j h
    exact ⟨hf.1, hf.2.1, hf.2.2.1, fun _ => hf.2.2.2⟩
  | cleanVerifiersOp => exact ⟨rfl, rfl, rfl, fun _ => rfl⟩
  | setThresholdOp t =>
    exact ⟨rfl, rfl, rfl, fun hc => by simp [isSetThresholdOp] at hc⟩

/-- Witness for the amended C8: a cleanVerifiers sweep on the sample
Aggregator (bound deal) changes none of sid, commits, deal, t. -/
theorem c8_witness :
    (applyOp aggW AggOp.cleanVerifiersOp).sid = aggW.sid ∧
    (applyOp aggW AggOp.cleanVerifiersOp).commits = aggW.commits ∧
    (applyOp aggW AggOp.cleanVerifiersOp).deal = aggW.deal ∧
    (isSetThresholdOp AggOp.cleanVerifiersOp = false →
      (applyOp aggW AggOp.cleanVerifiersOp).t = aggW.t) :=
  c8_bound_fields_stable aggW AggOp.cleanVerifiersOp rfl

/-! ## C9 -/

/-- A session-id hash oracle for the C9 instance: every recomputation yields
the byte string [9]. -/
def hashSidC9 : List Nat → Int → Bytes := fun _ _ => [9]

/-- A first Deal whose embedded session id [7] differs from the recomputed
hash [9]. -/
def dealC9 : Deal :=
  { sessionID := [7], secShare := { i := 1, v := 0 }, T := 2,
    commitments := [5, 6] }

/-- A fresh verifier at index 1 of 3 with an empty Aggregator. -/
def verifC9 : VerifierModel := { index := 1, agg := NewEmptyAggregator 3 }

/-- C9: with no Deal bound, VerifyDeal can never fail with MismatchedSession
or IncompatibleThreshold — sid and t are first copied from the incoming Deal
and then compared against it — and consequently the ProcessEncryptedDeal body
never compares the decrypted Deal's embedded session id with the recomputed
one: a first Deal whose embedded session id differs from the recomputed value
still produces an approval Response. -/
theorem c9_first_deal_binds (shareOk : Deal → Bool) (a : Aggregator) (d : Deal)
    (incl : Bool) (h : a.deal = none) :
    ((VerifyDeal shareOk a d incl).2 ≠ some VSSError.mismatchedSessionDeal ∧
     (VerifyDeal shareOk a d incl).2 ≠ some VSSError.incompatibleThreshold) ∧
    ((processDecryptedDeal hashSidC9 (fun _ => true) verifC9 dealC9).1 =
        some { sessionID := [9], index := 1, status := true } ∧
     dealC9.sessionID ≠ hashSidC9 dealC9.commitments (dealC9.T : Int)) := by
  refine ⟨?_, by constructor <;> decide⟩
  unfold VerifyDeal bindDeal
  rw [h]
  dsimp only
  repeat' split
  all_goals simp_all [sidBytes]

/-- Witness for C9 on a fresh Aggregator of three verifiers and the sample
first Deal. -/
theorem c9_witness :
    ((VerifyDeal (fun _ => true) (NewEmptyAggregator 3) dealC9 true).2 ≠
        some VSSError.mismatchedSessionDeal ∧
     (VerifyDeal (fun _ => true) (NewEmptyAggregator 3) dealC9 true).2 ≠
        some VSSError.incompatibleThreshold) ∧
    ((processDecryptedDeal hashSidC9 (fun _ => true) verifC9 dealC9).1 =
        some { sessionID := [9], index := 1, status := true } ∧
     dealC9.sessionID ≠ hashSidC9 dealC9.commitments (dealC9.T : Int)) :=
  c9_first_deal_binds (fun _ => true) (NewEmptyAggregator 3) dealC9 true rfl

/-! ## C10 -/

/-- C10 counterexample: RecoverSecret on an empty deals slice does return an
error — the range loop performs zero iterations, so the indexing expression
inside its body is never evaluated and there is no panic; the call reaches the
share primitive, which reports too few shares. -/
theorem c10_counterexample :
    RecoverSecret [] 5 3 = Except.error RecoverError.insufficientShares := rfl

/-- C10 amended: RecoverSecret is total on the empty slice: the session-id
loop is skipped (no element is ever indexed) and the call fails with
InsufficientShares for every t ≥ 1; for a non-empty slice, any session id
differing from the first deal's yields MismatchedSession. -/
theorem c10_recoverSecret_empty (n t : Int) (ht : 1 ≤ t) :
    RecoverSecret [] n t = Except.error RecoverError.insufficientShares ∧
    (∀ d0 ds, (∃ d ∈ ds, d.sessionID ≠ d0.sessionID) →
      RecoverSecret (d0 :: ds) n t =
        Except.error RecoverError.mismatchedSession) := by
  constructor
  · show shareRecoverSecret [] t n = _
    unfold shareRecoverSecret
    have hc : ((([] : List PriShare).length : Int) < t) := by simpa using ht
    rw [if_pos hc]
  · intro d0 ds hex
    show (if (d0 :: ds).all (fun d => d.sessionID == d0.sessionID) = true
          then shareRecoverSecret ((d0 :: ds).map Deal.secShare) t n
          else Except.error RecoverError.mismatchedSession) = _
    have hcond :
        ¬((d0 :: ds).all (fun d => d.sessionID == d0.sessionID) = true) := by
      intro hall
      obtain ⟨d, hd, hne⟩ := hex
      have h2 := List.all_eq_true.mp hall d (List.mem_cons_of_mem d0 hd)
      exact hne (by simpa using h2)
    rw [if_neg hcond]

/-- Witness for the amended C10 at n = 4, t = 2. -/
theorem c10_witness :
    RecoverSecret [] 4 2 = Except.error RecoverError.insufficientShares :=
  (c10_recoverSecret_empty 4 2 (by decide)).1

end Pedersen
